import Mathlib

/-!
Verification of the `npcrypto` Keccak-f[200] batched permutation
(`src/npcrypto/keccak.py`) through a shallow embedding in Lean.

A lane is an 8-bit unsigned integer, modelled as a `Nat` kept below 256.
A state is a list of 25 lanes in row-major 5x5 order and a batch is a list
of states.  The numpy code applies every step elementwise and identically
to each state of the batch, so each batched step is `List.map` of a
per-state function.  numpy uint8 arithmetic is modelled by `Nat` operations
with explicit `% 256` where the numpy operation truncates (left shift);
`np.invert` on uint8 is `255 ^^^ v`.

The width-generic family (`W`-suffixed definitions) models the very same
source functions executed on a numpy array of a wider unsigned dtype
(bit width `w`): numpy performs the identical program text, but `<<`
truncates at `2 ^ w` and `np.invert` complements all `w` bits.  It is used
to study what `permutation` does on inputs whose lanes are not
representable in 8 bits.
-/

namespace NpCrypto

/-- `MAX_ROUNDS = 18` from the source. -/
def MAX_ROUNDS : Nat := 18

/-- The round-constant table `RC` (18 uint8 entries) from the source. -/
def RC : List Nat :=
  [0x01, 0x82, 0x8a, 0x00, 0x8b, 0x01, 0x81, 0x09, 0x8a, 0x88, 0x09, 0x0a,
   0x8b, 0x8b, 0x89, 0x03, 0x02, 0x80]

/-- The `RHO_OFFSETS` 5x5 table from the source, flattened row-major so that
the offset of the lane at flat index `i` is entry `i`. -/
def RHO_OFFSETS : List Nat :=
  [0, 1, 6, 4, 3,
   4, 4, 6, 7, 4,
   3, 2, 3, 1, 7,
   1, 5, 7, 5, 0,
   2, 2, 5, 0, 6]

/-- Read the lane at flat index `i` of a state (missing entries read as 0;
every state handled by the claims has exactly 25 entries). -/
def lane (s : List Nat) (i : Nat) : Nat := s.getD i 0

/-- `ROL8(states, offset) = (states << offset) ^ (states >> 8 - offset)` from
the source, on uint8: the numpy left shift keeps dtype uint8, so bits above
bit 7 are discarded (`% 256`); the right shift is an ordinary logical shift
(for `offset = 0` numpy computes `v >> 8`, which is 0 after C integer
promotion, exactly as `Nat.shiftRight` gives here). -/
def ROL8 (v r : Nat) : Nat := ((v <<< r) % 256) ^^^ (v >>> (8 - r))

/-- Column parity of `theta`: `C = np.bitwise_xor.reduce(states, axis=-2)`
after the reshape to 5x5, i.e. the XOR of the five lanes of column `c`
(flat indices `c, c+5, c+10, c+15, c+20`). -/
def thetaC (s : List Nat) (c : Nat) : Nat :=
  lane s c ^^^ lane s (c + 5) ^^^ lane s (c + 10) ^^^ lane s (c + 15) ^^^ lane s (c + 20)

/-- `D` of `theta`: with `C1 = np.roll(C, -1)` (entry `c` is `C[(c+1) % 5]`)
and `C4 = np.roll(C, -4)` (entry `c` is `C[(c+4) % 5]`),
`D = ROL8(C1, 1) ^ C4`. -/
def thetaD (s : List Nat) (c : Nat) : Nat :=
  ROL8 (thetaC s ((c + 1) % 5)) 1 ^^^ thetaC s ((c + 4) % 5)

/-- `theta` on one state: after `np.repeat(D, 5, axis=-2).reshape(N, 5, 5)`
every row of a state receives the same `D`, so the lane at flat index `i`
(column `i % 5`) is XORed with `D[i % 5]`. -/
def thetaState (s : List Nat) : List Nat :=
  (List.range 25).map (fun i => lane s i ^^^ thetaD s (i % 5))

/-- `theta` from the source: applied independently to each state of the
batch (numpy broadcasts all its operations along the `N` axis). -/
def theta (b : List (List Nat)) : List (List Nat) := b.map thetaState

/-- `rho` on one state: `ROL8(states, RHO_OFFSETS)` rotates the lane at
flat index `i` by `RHO_OFFSETS[i]` (row-major broadcast of the 5x5 table). -/
def rhoState (s : List Nat) : List Nat :=
  (List.range 25).map (fun i => ROL8 (lane s i) (RHO_OFFSETS.getD i 0))

/-- `rho` from the source, per state of the batch. -/
def rho (b : List (List Nat)) : List (List Nat) := b.map rhoState

/-- The fixed lane-relocation table `p_mat` of `pi` from the source. -/
def p_mat : List Nat :=
  [0, 6, 12, 18, 24, 3, 9, 10, 16, 22, 1, 7, 13, 19, 20, 4, 5, 11, 17, 23,
   2, 8, 14, 15, 21]

/-- `pi` on one state: `states[:, p_mat]`, i.e. output lane `i` is input
lane `p_mat[i]`. -/
def piState (s : List Nat) : List Nat := p_mat.map (fun j => lane s j)

/-- `pi` from the source, per state of the batch. -/
def pi (b : List (List Nat)) : List (List Nat) := b.map piState

/-- The inverse of `p_mat`: `p_inv[p_mat[i]] = i` for all `i < 25`.  This
table is not in the source; it is the verification artifact for the
bijectivity check of `pi` (inverting the relocation recovers the state). -/
def p_inv : List Nat :=
  [0, 10, 20, 5, 15, 16, 1, 11, 21, 6, 7, 17, 2, 12, 22, 23, 8, 18, 3, 13,
   14, 24, 9, 19, 4]

/-- Applying the inverse table to one state, in the same indexing style as
`piState`: output lane `i` is input lane `p_inv[i]`. -/
def piInvState (s : List Nat) : List Nat := p_inv.map (fun j => lane s j)

/-- `chi` on one state: with `A1 = np.roll(states, -1, axis=-1)` and
`A2 = np.roll(states, -2, axis=-1)` (row-internal rolls: entry `(r, c)` of
`A1` is lane `(r, (c+1) % 5)`), the result is
`states ^ (np.invert(A1) & A2)`; `np.invert` on uint8 is `255 ^^^ v`. -/
def chiState (s : List Nat) : List Nat :=
  (List.range 25).map (fun i =>
    lane s i ^^^
      ((255 ^^^ lane s (5 * (i / 5) + (i % 5 + 1) % 5)) &&&
        lane s (5 * (i / 5) + (i % 5 + 2) % 5)))

/-- `chi` from the source, per state of the batch. -/
def chi (b : List (List Nat)) : List (List Nat) := b.map chiState

/-- The in-place update `states[:, 0] ^= rc` of `iota` on one state: XOR
`rc` into the lane at flat index 0, all other lanes unchanged. -/
def iotaState (rc : Nat) (s : List Nat) : List Nat :=
  match s with
  | [] => []
  | x :: rest => (x ^^^ rc) :: rest

/-- `iota` from the source as called by `permutation`, where `round_index`
ranges over `0, ..., MAX_ROUNDS - 1`: XOR `RC[round_index]` into lane 0 of
every state. -/
def iota (b : List (List Nat)) (round_index : Nat) : List (List Nat) :=
  b.map (iotaState (RC.getD round_index 0))

/-- `iota` with the full semantics of the numpy scalar read
`RC[round_index]` for an arbitrary Python int `round_index`: a negative
index first has `len(RC) = 18` added to it; if the adjusted index lies in
`[0, 18)` the read succeeds, otherwise numpy raises `IndexError`. -/
def iotaE (b : List (List Nat)) (round_index : Int) : Except String (List (List Nat)) :=
  let n : Int := (RC.length : Int)
  let j : Int := if round_index < 0 then round_index + n else round_index
  if 0 ≤ j ∧ j < n then Except.ok (b.map (iotaState (RC.getD j.toNat 0)))
  else Except.error "IndexError"

/-- `keccak_round` from the source: theta, then rho, then pi, then chi,
then iota with the given round index. -/
def keccak_round (b : List (List Nat)) (round_index : Nat) : List (List Nat) :=
  iota (chi (pi (rho (theta b)))) round_index

/-- `permutation` from the source: `for i in range(MAX_ROUNDS): states =
keccak_round(states, i)`, returning the final batch. -/
def permutation (b : List (List Nat)) : List (List Nat) :=
  (List.range MAX_ROUNDS).foldl keccak_round b

/-- `ROL8` executed on an unsigned numpy dtype of bit width `w` (same source
text; only the dtype differs, so the left shift truncates at `2 ^ w`). -/
def ROL8W (w v r : Nat) : Nat := ((v <<< r) % 2 ^ w) ^^^ (v >>> (8 - r))

/-- `D` of `theta` at dtype width `w`. -/
def thetaDW (w : Nat) (s : List Nat) (c : Nat) : Nat :=
  ROL8W w (thetaC s ((c + 1) % 5)) 1 ^^^ thetaC s ((c + 4) % 5)

/-- `theta` on one state at dtype width `w`. -/
def thetaStateW (w : Nat) (s : List Nat) : List Nat :=
  (List.range 25).map (fun i => lane s i ^^^ thetaDW w s (i % 5))

/-- `theta` at dtype width `w`, per state of the batch. -/
def thetaW (w : Nat) (b : List (List Nat)) : List (List Nat) := b.map (thetaStateW w)

/-- `rho` on one state at dtype width `w`. -/
def rhoStateW (w : Nat) (s : List Nat) : List Nat :=
  (List.range 25).map (fun i => ROL8W w (lane s i) (RHO_OFFSETS.getD i 0))

/-- `rho` at dtype width `w`, per state of the batch. -/
def rhoW (w : Nat) (b : List (List Nat)) : List (List Nat) := b.map (rhoStateW w)

/-- `chi` on one state at dtype width `w`: `np.invert` complements all `w`
bits, i.e. XORs with `2 ^ w - 1`. -/
def chiStateW (w : Nat) (s : List Nat) : List Nat :=
  (List.range 25).map (fun i =>
    lane s i ^^^
      (((2 ^ w - 1) ^^^ lane s (5 * (i / 5) + (i % 5 + 1) % 5)) &&&
        lane s (5 * (i / 5) + (i % 5 + 2) % 5)))

/-- `chi` at dtype width `w`, per state of the batch. -/
def chiW (w : Nat) (b : List (List Nat)) : List (List Nat) := b.map (chiStateW w)

/-- `keccak_round` at dtype width `w` (iota XORs the uint8 round constant
into the widened lane 0, same as at width 8). -/
def keccak_roundW (w : Nat) (b : List (List Nat)) (round_index : Nat) : List (List Nat) :=
  iota (chiW w (pi (rhoW w (thetaW w b)))) round_index

/-- `permutation` at dtype width `w`. -/
def permutationW (w : Nat) (b : List (List Nat)) : List (List Nat) :=
  (List.range MAX_ROUNDS).foldl (keccak_roundW w) b

/-- `permutation` together with numpy's shape handling.  The first
shape-sensitive operation is the reshape `states.reshape(N, 5, 5)` inside
`theta` of round 0: it raises `ValueError` exactly when the array is
nonempty and its states do not have 25 lanes (`N * k != N * 25`); for
`N = 0` the reshape of a size-0 array succeeds for any lane count and the
pipeline runs through on empty arrays.  No value-level check exists
anywhere in the source, so a batch of a wider dtype whose lanes exceed 255
is processed like any other. -/
def permutationE (w : Nat) (b : List (List Nat)) : Except String (List (List Nat)) :=
  if b.length != 0 && !(b.all fun s => s.length == 25) then Except.error "ValueError"
  else Except.ok (permutationW w b)

/-- Whether an `Except` result is a success. -/
def exceptIsOk (e : Except String (List (List Nat))) : Bool :=
  match e with
  | Except.ok _ => true
  | Except.error _ => false

/-- Reading an in-range index through `List.map` applies the function to
the entry of the original list. -/
theorem getD_map_of_lt {α β : Type} (f : α → β) (d : α) (d2 : β) :
    ∀ (l : List α) (i : Nat), i < l.length → (l.map f).getD i d2 = f (l.getD i d) := by
  intro l
  induction l with
  | nil => intro i h; simp at h
  | cons a t ih =>
    intro i h
    cases i with
    | zero => rfl
    | succ j => exact ih j (Nat.lt_of_succ_lt_succ h)

/-- Reading back a list of length `n` at indices `0, ..., n - 1` rebuilds
the list. -/
theorem range_map_getD : ∀ (n : Nat) (s : List Nat), s.length = n →
    (List.range n).map (fun i => s.getD i 0) = s := by
  intro n
  induction n with
  | zero =>
    intro s hs
    rw [List.length_eq_zero.mp hs]
    rfl
  | succ n ih =>
    intro s hs
    cases s with
    | nil => simp at hs
    | cons a t =>
      rw [List.range_succ_eq_map, List.map_cons, List.map_map]
      have hc : ((fun i => (a :: t).getD i 0) ∘ Nat.succ) = fun i => t.getD i 0 := by
        funext j
        rfl
      rw [hc, ih t (by simpa using hs)]
      rfl

end NpCrypto

namespace NpCrypto

set_option maxRecDepth 100000 in
set_option maxHeartbeats 2000000 in
/-- Claim C1: the single-state batch of the primary regression fixture is
mapped by `permutation` (18 rounds) exactly to the expected output vector,
bit for bit. -/
theorem C1_end_to_end_fixture :
    permutation
        [[244, 237, 146, 136, 194, 119, 230, 20, 38, 153, 174, 61, 167, 242,
          195, 179, 8, 8, 136, 17, 205, 246, 3, 170, 138]] =
      [[41, 65, 240, 43, 90, 191, 154, 77, 96, 226, 90, 29, 231, 175, 191,
        227, 209, 75, 126, 230, 237, 185, 198, 91, 166]] := by
  decide

/-- Claim C2: `keccak_round` is theta, then rho, then pi, then chi, then
iota with the given round index, in that exact order; `MAX_ROUNDS = 18`;
and `permutation` chains `keccak_round` for round indices 0, 1, ..., 17 in
strictly increasing order, feeding each output batch into the next round
and returning the batch produced after round 17. -/
theorem C2_round_and_driver_order :
    (∀ (b : List (List Nat)) (i : Nat),
        keccak_round b i = iota (chi (pi (rho (theta b)))) i) ∧
      MAX_ROUNDS = 18 ∧
      ∀ b : List (List Nat),
        permutation b =
          keccak_round (keccak_round (keccak_round (keccak_round (keccak_round
            (keccak_round (keccak_round (keccak_round (keccak_round (keccak_round
            (keccak_round (keccak_round (keccak_round (keccak_round (keccak_round
            (keccak_round (keccak_round (keccak_round b 0) 1) 2) 3) 4) 5) 6) 7) 8)
            9) 10) 11) 12) 13) 14) 15) 16) 17 := by
  refine ⟨fun b i => rfl, rfl, fun b => ?_⟩
  simp [permutation, MAX_ROUNDS, List.range_succ]

set_option maxRecDepth 100000 in
set_option maxHeartbeats 1000000 in
/-- Claim C3: for every 8-bit lane value `v` and rotate amount `r` in
`[0, 8)`, `ROL8 v r` equals `(v << r) | (v >> (8 - r))` computed with
8-bit wrap-around (overflow bits above bit 7 discarded before combining);
in particular `ROL8 v 0 = v` for all 256 values of `v`. -/
theorem C3_ROL8_rotate :
    (∀ v : Nat, v < 256 → ∀ r : Nat, r < 8 →
        ROL8 v r = ((v <<< r) % 256) ||| (v >>> (8 - r))) ∧
      ∀ v : Nat, v < 256 → ROL8 v 0 = v := by
  constructor <;> decide

/-- Witness for C3 at `v = 0xb5`, `r = 3`. -/
theorem C3_ROL8_rotate_witness :
    ROL8 0xb5 3 = ((0xb5 <<< 3) % 256) ||| (0xb5 >>> 5) ∧ ROL8 0xb5 0 = 0xb5 :=
  ⟨C3_ROL8_rotate.1 0xb5 (by decide) 3 (by decide),
   C3_ROL8_rotate.2 0xb5 (by decide)⟩

/-- Claim C4: for every batch, every state in it and every lane position
`i < 25`, the lane of `theta` at flat index `i` is the input lane XORed
with `D[c]` for its column `c = i % 5`, where
`D[c] = ROL8(C[(c+1) % 5], 1) XOR C[(c+4) % 5]` and `C[c]` is the XOR of
the five lanes at flat indices `c, c+5, c+10, c+15, c+20`. -/
theorem C4_theta_column_parity (b : List (List Nat)) (si i : Nat)
    (hsi : si < b.length) (hi : i < 25) :
    lane ((theta b).getD si []) i =
      lane (b.getD si []) i ^^^
        (ROL8 (lane (b.getD si []) ((i % 5 + 1) % 5) ^^^
               lane (b.getD si []) ((i % 5 + 1) % 5 + 5) ^^^
               lane (b.getD si []) ((i % 5 + 1) % 5 + 10) ^^^
               lane (b.getD si []) ((i % 5 + 1) % 5 + 15) ^^^
               lane (b.getD si []) ((i % 5 + 1) % 5 + 20)) 1 ^^^
          (lane (b.getD si []) ((i % 5 + 4) % 5) ^^^
           lane (b.getD si []) ((i % 5 + 4) % 5 + 5) ^^^
           lane (b.getD si []) ((i % 5 + 4) % 5 + 10) ^^^
           lane (b.getD si []) ((i % 5 + 4) % 5 + 15) ^^^
           lane (b.getD si []) ((i % 5 + 4) % 5 + 20))) := by
  rw [show (theta b).getD si [] = thetaState (b.getD si []) from
    getD_map_of_lt thetaState [] [] b si hsi]
  interval_cases i <;> rfl

/-- Witness for C4: on the all-3 state, every column parity is 3, so
`D = ROL8 3 1 XOR 3 = 6 XOR 3 = 5` and every output lane is `3 XOR 5 = 6`. -/
theorem C4_theta_column_parity_witness :
    lane ((theta [List.replicate 25 3]).getD 0 []) 7 = 6 :=
  C4_theta_column_parity [List.replicate 25 3] 0 7 (by decide) (by decide)

/-- Claim C5: for every batch, every state and every row independently,
the lane of `chi` at flat index `i` (row `i / 5`, column `c = i % 5`) is
`lane[c] XOR (NOT(lane[(c+1) % 5]) AND lane[(c+2) % 5])` over the pre-chi
values of the same row, `NOT` being the 8-bit complement `255 XOR value`. -/
theorem C5_chi_row_combine (b : List (List Nat)) (si i : Nat)
    (hsi : si < b.length) (hi : i < 25) :
    lane ((chi b).getD si []) i =
      lane (b.getD si []) i ^^^
        ((255 ^^^ lane (b.getD si []) (5 * (i / 5) + (i % 5 + 1) % 5)) &&&
          lane (b.getD si []) (5 * (i / 5) + (i % 5 + 2) % 5)) := by
  rw [show (chi b).getD si [] = chiState (b.getD si []) from
    getD_map_of_lt chiState [] [] b si hsi]
  interval_cases i <;> rfl

/-- Witness for C5 on the all-3 state at flat index 4:
`3 XOR ((255 XOR 3) AND 3) = 3 XOR 0 = 3`. -/
theorem C5_chi_row_combine_witness :
    lane ((chi [List.replicate 25 3]).getD 0 []) 4 = 3 :=
  C5_chi_row_combine [List.replicate 25 3] 0 4 (by decide) (by decide)

/-- Claim C6: `pi` is a pure relocation by the fixed table `p_mat` (output
lane `i` is input lane `p_mat[i]`, read from the pre-pi state) and a true
permutation of the 25 positions: applying the inverse table after it
recovers the original 25-lane state exactly. -/
theorem C6_pi_relocation_bijective (s : List Nat) (h : s.length = 25) :
    (∀ i, i < 25 → lane (piState s) i = lane s (p_mat.getD i 0)) ∧
      piInvState (piState s) = s := by
  constructor
  · intro i hi
    interval_cases i <;> rfl
  · have key : piInvState (piState s) = (List.range 25).map fun i => s.getD i 0 := rfl
    rw [key]
    exact range_map_getD 25 s h

/-- Witness for C6 on the state `0, 1, ..., 24`: lane 1 of `pi` is input
lane `p_mat[1] = 6`, and the inverse table restores the state. -/
theorem C6_pi_relocation_bijective_witness :
    lane (piState (List.range 25)) 1 = 6 ∧
      piInvState (piState (List.range 25)) = List.range 25 :=
  ⟨(C6_pi_relocation_bijective (List.range 25) (by simp)).1 1 (by decide),
   (C6_pi_relocation_bijective (List.range 25) (by simp)).2⟩

/-- One round distributes over concatenation of batches: every step is a
per-state map. -/
theorem keccak_round_append (b1 b2 : List (List Nat)) (i : Nat) :
    keccak_round (b1 ++ b2) i = keccak_round b1 i ++ keccak_round b2 i := by
  simp [keccak_round, theta, rho, pi, chi, iota, List.map_append]

/-- Chaining rounds distributes over concatenation of batches. -/
theorem foldl_keccak_round_append (rs : List Nat) :
    ∀ b1 b2 : List (List Nat),
      rs.foldl keccak_round (b1 ++ b2) =
        rs.foldl keccak_round b1 ++ rs.foldl keccak_round b2 := by
  induction rs with
  | nil => intro b1 b2; rfl
  | cons r t ih =>
    intro b1 b2
    simp only [List.foldl_cons]
    rw [keccak_round_append]
    exact ih _ _

/-- Claim C9: `permutation` acts independently on the states of a batch:
it distributes over concatenation of batches (no step lets one state
influence another), and in particular on a two-state batch it equals the
concatenation of the two single-state results, element by element. -/
theorem C9_batch_independence :
    (∀ b1 b2 : List (List Nat),
        permutation (b1 ++ b2) = permutation b1 ++ permutation b2) ∧
      ∀ s1 s2 : List Nat, s1.length = 25 → s2.length = 25 →
        permutation [s1, s2] = permutation [s1] ++ permutation [s2] := by
  constructor
  · intro b1 b2
    exact foldl_keccak_round_append (List.range MAX_ROUNDS) b1 b2
  · intro s1 s2 h1 h2
    exact foldl_keccak_round_append (List.range MAX_ROUNDS) [s1] [s2]

/-- Witness for C9 on the all-0 and all-7 single states. -/
theorem C9_batch_independence_witness :
    permutation [List.replicate 25 0, List.replicate 25 7] =
      permutation [List.replicate 25 0] ++ permutation [List.replicate 25 7] :=
  C9_batch_independence.2 (List.replicate 25 0) (List.replicate 25 7)
    (by simp) (by simp)

/-- Counterexample to claim C7: a one-state batch of a 64-bit dtype whose
first lane is 256 — not representable in 8 bits — is not rejected:
`permutation` runs through and returns a result instead of failing. -/
theorem C7_counterexample :
    exceptIsOk (permutationE 64
      [[256, 0, 0, 0, 0, 0, 0, 0, 0, 0, 0, 0, 0, 0, 0, 0, 0, 0, 0, 0, 0, 0,
        0, 0, 0]]) = true := rfl

/-- Claim C7 as amended: a nonempty batch whose states have a lane count
other than 25 is rejected at the boundary (the reshape inside `theta`
raises `ValueError`), but a batch whose 25 lanes are not representable in
8 bits (a wider dtype) is not rejected — `permutation` silently computes
over it with the wider arithmetic; a negative batch size cannot be
constructed for a numpy array at all. -/
theorem C7_shape_rejected_width_not (w : Nat) (b : List (List Nat)) (k : Nat) :
    (b ≠ [] → (∀ s ∈ b, s.length = k) → k ≠ 25 →
        permutationE w b = Except.error "ValueError") ∧
      ((∀ s ∈ b, s.length = 25) →
        permutationE w b = Except.ok (permutationW w b)) := by
  constructor
  · intro hne hall hk
    cases b with
    | nil => exact absurd rfl hne
    | cons s t =>
      have hs : s.length = k := hall s (List.mem_cons_self s t)
      have hhead : (s.length == 25) = false := by
        rw [hs]
        exact beq_eq_false_iff_ne.mpr hk
      simp [permutationE, List.all_cons, hhead]
  · intro hall
    have hcond : (b.all fun s => s.length == 25) = true := by
      rw [List.all_eq_true]
      intro s hs
      exact Nat.beq_eq_true_eq s.length 25 ▸ hall s hs
    simp [permutationE, hcond]

/-- Witness for C7 as amended: a batch of one 3-lane state is rejected,
and the empty batch (and any batch of 25-lane states) goes through. -/
theorem C7_shape_rejected_width_not_witness :
    permutationE 8 [[0, 0, 0]] = Except.error "ValueError" ∧
      permutationE 8 [] = Except.ok (permutationW 8 []) :=
  ⟨(C7_shape_rejected_width_not 8 [[0, 0, 0]] 3).1 (by decide) (by decide)
      (by decide),
   (C7_shape_rejected_width_not 8 [] 0).2 (by decide)⟩

/-- Counterexample to claim C8: the out-of-[0,18) round index `-1` does
not fail — numpy wraps the negative index into the `RC` table
(`RC[-1] = RC[17] = 0x80 = 128`) and `iota` returns normally. -/
theorem C8_counterexample :
    iotaE [[0, 0, 0]] (-1) = Except.ok [[128, 0, 0]] := rfl

/-- Claim C8 as amended: `iota` fails (an `IndexError`, a fatal
programming error rather than a transformed batch) only for round indices
`>= 18` or `< -18`; for every round index in `[0, 18)` it XORs
`RC[round_index]` into the lane at flat index 0 of every state and leaves
the other lanes unchanged (round indices in `[-18, -1]` are silently
accepted with the wrapped constant, see the counterexample). -/
theorem C8_iota_round_index_range (b : List (List Nat)) (ri : Int) :
    ((ri < -18 ∨ 18 ≤ ri) → iotaE b ri = Except.error "IndexError") ∧
      (0 ≤ ri → ri < 18 →
        iotaE b ri =
          Except.ok (b.map fun s =>
            match s with
            | [] => []
            | x :: rest => (x ^^^ RC.getD ri.toNat 0) :: rest)) := by
  have hRC : RC.length = 18 := rfl
  constructor
  · intro hout
    simp only [iotaE, hRC, Nat.cast_ofNat]
    split_ifs with h1 h2 <;> first | rfl | (exfalso; omega)
  · intro h0 h18
    simp only [iotaE, hRC, Nat.cast_ofNat]
    split_ifs with h1 h2 <;> first | rfl | (exfalso; omega)

/-- Witness for C8 as amended: round index 20 raises, round index 0 XORs
`RC[0] = 1` into lane 0 only. -/
theorem C8_iota_round_index_range_witness :
    iotaE [[1, 2]] 20 = Except.error "IndexError" ∧
      iotaE [[1, 2]] 0 = Except.ok [[0, 2]] :=
  ⟨(C8_iota_round_index_range [[1, 2]] 20).1 (Or.inr (by decide)),
   (C8_iota_round_index_range [[1, 2]] 0).2 (by decide) (by decide)⟩

/-- Claim C10: for every round index in `[-18, -1]`, `iota` returns
normally, XORing `RC[18 + round_index]` into lane 0 of every state
(negative indexing wraps into the round-constant table); an index error
occurs exactly for round indices `>= 18` or `< -18`. -/
theorem C10_iota_negative_wrap (b : List (List Nat)) (ri : Int) :
    (-18 ≤ ri → ri ≤ -1 →
        iotaE b ri =
          Except.ok (b.map fun s =>
            match s with
            | [] => []
            | x :: rest => (x ^^^ RC.getD (18 + ri).toNat 0) :: rest)) ∧
      (iotaE b ri = Except.error "IndexError" ↔ 18 ≤ ri ∨ ri < -18) := by
  have hRC : RC.length = 18 := rfl
  constructor
  · intro hlo hhi
    simp only [iotaE, hRC, Nat.cast_ofNat]
    rw [Int.add_comm ri 18]
    split_ifs with h1 h2 <;> first | rfl | (exfalso; omega)
  · constructor
    · intro herr
      simp only [iotaE, hRC, Nat.cast_ofNat] at herr
      split_ifs at herr with h1 h2 <;>
        first | exact Except.noConfusion herr | omega
    · intro hout
      simp only [iotaE, hRC, Nat.cast_ofNat]
      split_ifs with h1 h2 <;> first | rfl | (exfalso; omega)

/-- Witness for C10 at round index `-3` on a one-lane state:
`RC[18 - 3] = RC[15] = 3` and `5 XOR 3 = 6`. -/
theorem C10_iota_negative_wrap_witness :
    iotaE [[5]] (-3) = Except.ok [[6]] ∧
      (iotaE [[5]] (-3) = Except.error "IndexError" ↔
        18 ≤ (-3 : Int) ∨ (-3 : Int) < -18) :=
  ⟨(C10_iota_negative_wrap [[5]] (-3)).1 (by decide) (by decide),
   (C10_iota_negative_wrap [[5]] (-3)).2⟩

end NpCrypto
